import Mathlib

/-!
Shallow embedding of the GroupCart service (Express + pg-promise router over the
tables UserGroup / AppUser / ListItem / Favor) and proofs about its operations.

Each table is a list of rows, in insertion order (SERIAL ids are assigned in
ascending order, so table order for ListItem / Favor is ascending id order).
Timestamps are modelled as naturals, monetary amounts as rationals.
Request-body fields that may be absent are `Option`; JavaScript truthiness
checks (`!x`) on strings treat `none` and `some ""` as falsy, and on numbers
treat `none` and `some 0` as falsy.
-/

namespace GroupCart

/-- A row of UserGroup: `ID VARCHAR PRIMARY KEY, name`. -/
structure GroupRow where
  id : String
  name : String
  deriving DecidableEq

/-- A row of AppUser: `ID SERIAL PRIMARY KEY, username UNIQUE, firstName,
lastName, color NULL, groupID NULL REFERENCES UserGroup`. -/
structure UserRow where
  id : Nat
  username : String
  firstName : String
  lastName : String
  color : Option String
  groupID : Option String
  deriving DecidableEq

/-- A row of ListItem: `ID SERIAL PRIMARY KEY, itemName, priority, added,
userID REFERENCES AppUser`. -/
structure ListItemRow where
  id : Nat
  itemName : String
  priority : Nat
  added : Nat
  userID : Nat
  deriving DecidableEq

/-- A row of Favor: `ID SERIAL PRIMARY KEY, amount, fulfilled, reimbursed NULL,
byUserID, forUserID, itemID UNIQUE REFERENCES ListItem`. -/
structure FavorRow where
  id : Nat
  amount : ℚ
  fulfilled : Nat
  reimbursed : Option Nat
  byUserID : Nat
  forUserID : Nat
  itemID : Nat
  deriving DecidableEq

/-- The database state: the four tables, each in insertion order. -/
structure DB where
  groups : List GroupRow
  users : List UserRow
  listItems : List ListItemRow
  favors : List FavorRow
  deriving DecidableEq

/-- JavaScript falsiness of an optional string (`!x`): absent or empty. -/
def strFalsy : Option String → Bool
  | none => true
  | some s => s == ""

/-- JavaScript falsiness of an optional number (`!x`): absent or zero. -/
def natFalsy : Option Nat → Bool
  | none => true
  | some n => n == 0

/-- `x || null` applied to an optional string value read from the database. -/
def jsOrNullStr : Option String → Option String
  | none => none
  | some s => if s = "" then none else some s

/-- `x || null` applied to an optional numeric value read from the database. -/
def jsOrNullNat : Option Nat → Option Nat
  | none => none
  | some n => if n = 0 then none else some n

/-! ## PUT /favor/:id -/

/-- Outcome of `PUT /favor/:id`: 400, 404 or 200. -/
inductive UpdateFavorResult where
  | validation
  | notFound
  | ok
  deriving DecidableEq

/-- `router.put('/favor/:id')`: validates that `reimbursed` and `amount` are
present, 404s when no Favor has the id, otherwise runs
`UPDATE Favor SET amount = $1, reimbursed = $2 WHERE id = $3` with
`reimbursed` set to `now` when the flag is true and to null otherwise. -/
def updateFavor (db : DB) (favorId : Nat) (reimbursed : Option Bool)
    (amount : Option ℚ) (now : Nat) : UpdateFavorResult × DB :=
  if amount.isNone || reimbursed.isNone then
    (.validation, db)
  else if (db.favors.find? (fun f => f.id == favorId)).isNone then
    (.notFound, db)
  else
    let reimbursedAt : Option Nat := if reimbursed.getD false then some now else none
    (.ok, { db with
      favors := db.favors.map (fun f =>
        if f.id == favorId then
          { f with amount := amount.getD 0, reimbursed := reimbursedAt }
        else f) })

/-! ## POST /favor -/

/-- Outcome of `POST /favor`: 400, 404 (user), 404 (item), 409 or 201. -/
inductive CreateFavorResult where
  | validation
  | userNotFound
  | itemNotFound
  | conflict
  | created (favorId : Nat)
  deriving DecidableEq

/-- The id the SERIAL column assigns to the next Favor row. -/
def freshFavorId (db : DB) : Nat :=
  (db.favors.map (fun f => f.id)).foldr max 0 + 1

/-- `router.post('/favor')`: validates `itemId`, `by`, `for`, `amount`
(JavaScript truthiness for the first three, `=== undefined` for `amount`),
looks up both usernames, verifies the item exists and belongs to the `for`
user, 409s when a Favor already exists for the item, otherwise inserts
`(amount, byUserID, forUserID, itemID)` with `fulfilled` defaulting to now. -/
def createFavor (db : DB) (itemId : Option Nat) (byUsername forUsername : Option String)
    (amount : Option ℚ) (now : Nat) : CreateFavorResult × DB :=
  if natFalsy itemId || strFalsy byUsername || strFalsy forUsername || amount.isNone then
    (.validation, db)
  else
    let i := itemId.getD 0
    match db.users.find? (fun u => u.username == byUsername.getD ""),
        db.users.find? (fun u => u.username == forUsername.getD "") with
    | some byUser, some forUser =>
      match db.listItems.find? (fun li => li.id == i && li.userID == forUser.id) with
      | none => (.itemNotFound, db)
      | some _ =>
        if (db.favors.find? (fun f => f.itemID == i)).isSome then
          (.conflict, db)
        else
          let fid := freshFavorId db
          (.created fid, { db with
            favors := db.favors ++
              [{ id := fid, amount := amount.getD 0, fulfilled := now,
                 reimbursed := none, byUserID := byUser.id, forUserID := forUser.id,
                 itemID := i }] })
    | _, _ => (.userNotFound, db)

/-! ## DELETE /list/:username/:id -/

/-- Outcome of `DELETE /list/:username/:id`: 404 or 200. -/
inductive DeleteItemResult where
  | notFound
  | ok
  deriving DecidableEq

/-- The ownership check of the list-item routes: a ListItem row with this id
joined to an AppUser row with this username. -/
def ownsItem (db : DB) (username : String) (itemId : Nat) : Bool :=
  db.listItems.any (fun li =>
    li.id == itemId && db.users.any (fun u =>
      u.id == li.userID && u.username == username))

/-- `router.delete('/list/:username/:id')`: 404s unless the item exists and is
owned by the username, then runs `DELETE FROM Favor WHERE itemID = $1`
followed by `DELETE FROM ListItem WHERE id = $1`. -/
def deleteListItem (db : DB) (username : String) (itemId : Nat) :
    DeleteItemResult × DB :=
  if !ownsItem db username itemId then
    (.notFound, db)
  else
    (.ok, { db with
      favors := db.favors.filter (fun f => !(f.itemID == itemId)),
      listItems := db.listItems.filter (fun li => !(li.id == itemId)) })

/-! ## DELETE /user/:username -/

/-- Outcome of `DELETE /user/:username`: 404, or 200 with the reported
`deletedItems` and `deletedFavors` counts. -/
inductive DeleteUserResult where
  | notFound
  | ok (deletedItems deletedFavors : Nat)
  deriving DecidableEq

/-- `router.delete('/user/:username')`: looks the user up, counts the user's
ListItems and the Favors given or received, then deletes (1) Favors whose
itemID is among the user's items, (2) Favors where the user is byUserID or
forUserID, (3) the user's ListItems, (4) the user row. The reported counts
are the two counts taken before the deletes. -/
def deleteUser (db : DB) (username : String) : DeleteUserResult × DB :=
  match db.users.find? (fun u => u.username == username) with
  | none => (.notFound, db)
  | some user =>
    let itemCount := (db.listItems.filter (fun li => li.userID == user.id)).length
    let favorCount := (db.favors.filter (fun f =>
      f.byUserID == user.id || f.forUserID == user.id)).length
    let ownedIds := (db.listItems.filter (fun li => li.userID == user.id)).map
      (fun li => li.id)
    let favors1 := db.favors.filter (fun f => !(ownedIds.contains f.itemID))
    let favors2 := favors1.filter (fun f =>
      !(f.byUserID == user.id || f.forUserID == user.id))
    (.ok itemCount favorCount, { db with
      users := db.users.filter (fun u => !(u.id == user.id)),
      listItems := db.listItems.filter (fun li => !(li.userID == user.id)),
      favors := favors2 })

/-! ## POST /group/:id -/

/-- Outcome of `POST /group/:id`: 400, 409, 404 (a listed user missing) or
201. -/
inductive CreateGroupResult where
  | validation
  | conflict
  | usersNotFound
  | created
  deriving DecidableEq

/-- `router.post('/group/:id')`: validates `name`, 409s when the group id
exists, then INSERTS the group row. Only afterwards, when a non-empty user
list was supplied, it checks that every listed username exists
(`SELECT username FROM AppUser WHERE username = ANY($1)` compared by count)
and either 404s — with the group row already inserted and no rollback — or
updates the listed users' groupID. -/
def createGroup (db : DB) (id name : String) (users : Option (List String)) :
    CreateGroupResult × DB :=
  if name = "" then
    (.validation, db)
  else if (db.groups.find? (fun g => g.id == id)).isSome then
    (.conflict, db)
  else
    let db1 := { db with groups := db.groups ++ [{ id := id, name := name }] }
    match users with
    | none => (.created, db1)
    | some us =>
      if us.length = 0 then
        (.created, db1)
      else
        let existingUsers := db.users.filter (fun u => us.contains u.username)
        if existingUsers.length ≠ us.length then
          (.usersNotFound, db1)
        else
          (.created, { db1 with
            users := db1.users.map (fun u =>
              if us.contains u.username then { u with groupID := some id } else u) })

/-! ## PUT /user/:username -/

/-- The dynamically built UPDATE statement of `router.put('/user/:username')`.
The source pushes fragments with `` updates.push(`firstName = ${paramIndex++}`) ``
— the template literal interpolates the numeric value of `paramIndex`, so the
fragment is `firstName = 1`, not the pg-promise placeholder `firstName = $1`
(which would require a literal dollar sign before the interpolation). A
supplied-but-null groupId is `some none`. -/
def updateUserQuery (firstName lastName color : Option String)
    (groupId : Option (Option String)) : String :=
  let acc0 : List String × Nat := ([], 1)
  let acc1 := if firstName.isSome then
    (acc0.1 ++ ["firstName = " ++ toString acc0.2], acc0.2 + 1) else acc0
  let acc2 := if lastName.isSome then
    (acc1.1 ++ ["lastName = " ++ toString acc1.2], acc1.2 + 1) else acc1
  let acc3 := if color.isSome then
    (acc2.1 ++ ["color = " ++ toString acc2.2], acc2.2 + 1) else acc2
  let acc4 := if groupId.isSome then
    (acc3.1 ++ ["groupID = " ++ toString acc3.2], acc3.2 + 1) else acc3
  "UPDATE AppUser SET " ++ String.intercalate ", " acc4.1 ++
    " WHERE username = " ++ toString acc4.2

/-- The values array passed alongside the statement: one value per supplied
field (null groupId contributing a null), then the username. Modelled as the
number of values, which is what the placeholder numbering is measured
against. -/
def updateUserValuesLength (firstName lastName color : Option String)
    (groupId : Option (Option String)) : Nat :=
  (if firstName.isSome then 1 else 0) + (if lastName.isSome then 1 else 0) +
    (if color.isSome then 1 else 0) + (if groupId.isSome then 1 else 0) + 1

/-! ## GET /list/:username -/

/-- `ORDER BY li.priority, li.added`: lexicographic order on the pair. -/
def itemOrder (a b : ListItemRow) : Prop :=
  a.priority < b.priority ∨ (a.priority = b.priority ∧ a.added ≤ b.added)

instance : DecidableRel itemOrder := fun a b => by
  unfold itemOrder; infer_instance

instance : IsTotal ListItemRow itemOrder :=
  ⟨by intro a b; unfold itemOrder; omega⟩

instance : IsTrans ListItemRow itemOrder :=
  ⟨by intro a b c; unfold itemOrder; omega⟩

/-- One element of the personal-list response. -/
structure ListEntry where
  id : Nat
  item : String
  priority : Nat
  added : Nat
  fulfilled : Bool
  fulfilledBy : Option String
  fulfilledAt : Option Nat
  favorId : Option Nat
  deriving DecidableEq

/-- The rows `LEFT JOIN Favor f ON li.id = f.itemID` followed by
`LEFT JOIN AppUser u ON f.byUserID = u.id` produces for one ListItem row,
already shaped by the response formatter: `fulfilled` is the CASE on `f.id`,
`fulfilledBy` is `u.username || null`, `fulfilledAt` is `f.fulfilled` (a Date,
always truthy when present), `favorId` is `f.id || null`. -/
def listRowsFor (db : DB) (li : ListItemRow) : List ListEntry :=
  match db.favors.filter (fun f => f.itemID == li.id) with
  | [] => [{ id := li.id, item := li.itemName, priority := li.priority,
             added := li.added, fulfilled := false, fulfilledBy := none,
             fulfilledAt := none, favorId := none }]
  | fs => fs.map (fun f =>
      { id := li.id, item := li.itemName, priority := li.priority,
        added := li.added, fulfilled := true,
        fulfilledBy := jsOrNullStr
          ((db.users.find? (fun u => u.id == f.byUserID)).map (fun u => u.username)),
        fulfilledAt := some f.fulfilled,
        favorId := jsOrNullNat (some f.id) })

/-- `router.get('/list/:username')`: 404 (`none`) when the username is absent,
otherwise the user's ListItem rows ordered by priority then added, each left
joined with its Favor, if any. -/
def getList (db : DB) (username : String) : Option (List ListEntry) :=
  match db.users.find? (fun u => u.username == username) with
  | none => none
  | some user =>
    let owned := db.listItems.filter (fun li => li.userID == user.id)
    some ((List.insertionSort itemOrder owned).flatMap (listRowsFor db))

/-! ## GET /shop -/

/-- A row of the aggregation source of `GET /shop`: ListItem inner joined with
AppUser, left joined with Favor, keeping rows with no Favor
(`WHERE f.id IS NULL`). -/
structure ShopRow where
  id : Nat
  item : String
  username : String
  deriving DecidableEq

/-- An item is unfulfilled when no Favor row references it. -/
def unfulfilled (db : DB) (li : ListItemRow) : Bool :=
  !(db.favors.any (fun f => f.itemID == li.id))

/-- The row a single ListItem contributes to the `GET /shop` aggregation
source: nothing when a Favor references it (`WHERE f.id IS NULL` drops it) or
when no AppUser row matches its owner (inner join), else one row. -/
def shopRowFor (db : DB) (li : ListItemRow) : List ShopRow :=
  if unfulfilled db li then
    match db.users.find? (fun u => u.id == li.userID) with
    | some u => [{ id := li.id, item := li.itemName, username := u.username }]
    | none => []
  else []

/-- The pre-aggregation rows of the `GET /shop` query, in ListItem table
order: unfulfilled items inner joined with their owner. -/
def shopRows (db : DB) : List ShopRow :=
  db.listItems.flatMap (shopRowFor db)

/-- One element of the `GET /shop` response. -/
structure ShopEntry where
  itemIds : List Nat
  item : String
  neededBy : List String
  deriving DecidableEq

/-- The `GROUP BY li.itemName ORDER BY li.itemName` aggregation of
`router.get('/shop')` over one feed order of the joined rows. The query's
`array_agg(li.id)` and `array_agg(u.username)` carry no internal ORDER BY, so
PostgreSQL leaves the order in which a group's rows enter the aggregates
unspecified; the faithful semantics is this function applied to an arbitrary
permutation of the joined rows. Both aggregates of a group do see the same
feed order, and the set of group keys and their ORDER BY output order do not
depend on it. -/
def buildShoppingListRows (rows : List ShopRow) : List ShopEntry :=
  let names := List.insertionSort (· ≤ ·) (rows.map (fun r => r.item)).dedup
  names.map (fun n =>
    let group := rows.filter (fun r => r.item == n)
    { itemIds := group.map (fun r => r.id), item := n,
      neededBy := group.map (fun r => r.username) })

/-- `router.get('/shop')` with the aggregates fed in ListItem table order:
one possible run of the query. Only consequences that are insensitive to the
within-group order are properties of the program; order-sensitive ones must
be proved over `buildShoppingListRows` for every feed order. -/
def buildShoppingList (db : DB) : List ShopEntry :=
  buildShoppingListRows (shopRows db)

/-! ## Helper lemmas -/

theorem length_filter_not_add {α : Type} (p : α → Bool) (l : List α) :
    (l.filter (fun x => !(p x))).length + (l.filter p).length = l.length := by
  have h := (List.filter_append_perm p l).length_eq
  rw [List.length_append] at h
  omega

theorem favorUpdate_mem {favors : List FavorRow} {fid : Nat} {a : ℚ} {r : Option Nat}
    {f : FavorRow}
    (hmem : f ∈ favors.map (fun g =>
      if g.id == fid then { g with amount := a, reimbursed := r } else g))
    (hid : f.id = fid) : f.reimbursed = r ∧ f.amount = a := by
  rcases List.mem_map.mp hmem with ⟨g, _, rfl⟩
  by_cases h : g.id = fid
  · simp [h]
  · simp [h] at hid

theorem find?_id_isSome_map_update {favors : List FavorRow} {fid : Nat} {a : ℚ}
    {r : Option Nat}
    (h : (favors.find? (fun f => f.id == fid)).isSome) :
    ((favors.map (fun g =>
      if g.id == fid then { g with amount := a, reimbursed := r } else g)).find?
        (fun f => f.id == fid)).isSome := by
  rw [List.find?_isSome] at h ⊢
  rcases h with ⟨x, hx, hpx⟩
  refine ⟨if x.id == fid then { x with amount := a, reimbursed := r } else x,
    List.mem_map.mpr ⟨x, hx, rfl⟩, ?_⟩
  by_cases h2 : x.id = fid
  · simp [h2]
  · exact absurd (by simpa using hpx) h2

theorem updateFavor_ok_eq (db : DB) (fid : Nat) (b : Bool) (X : ℚ) (t : Nat)
    (hf : (db.favors.find? (fun f => f.id == fid)).isSome) :
    updateFavor db fid (some b) (some X) t =
      (.ok, { db with favors := db.favors.map (fun f =>
        if f.id == fid then
          { f with amount := X, reimbursed := if b then some t else none }
        else f) }) := by
  rcases Option.isSome_iff_exists.mp hf with ⟨v, hv⟩
  simp [updateFavor, hv]

/-! ## C5: reimbursement round trip -/

/-- C5: for every existing Favor, `updateFavor(id, reimbursed=true, amount=X)`
succeeds and leaves the favor with `reimbursedAt = some t1` (non-null) and
`amount = X`, and a subsequent `updateFavor(id, reimbursed=false, amount=X)`
succeeds and leaves it with `reimbursedAt = null`: the true→false round trip
restores the unreimbursed state, discarding the reimbursement timestamp. -/
theorem updateFavor_reimburse_roundTrip (db : DB) (fid : Nat) (X : ℚ) (t1 t2 : Nat)
    (hf : (db.favors.find? (fun f => f.id == fid)).isSome) :
    (updateFavor db fid (some true) (some X) t1).1 = .ok ∧
    (∀ f ∈ (updateFavor db fid (some true) (some X) t1).2.favors,
      f.id = fid → f.reimbursed = some t1 ∧ f.amount = X) ∧
    (updateFavor (updateFavor db fid (some true) (some X) t1).2 fid
        (some false) (some X) t2).1 = .ok ∧
    (∀ f ∈ (updateFavor (updateFavor db fid (some true) (some X) t1).2 fid
        (some false) (some X) t2).2.favors,
      f.id = fid → f.reimbursed = none ∧ f.amount = X) := by
  have h1 := updateFavor_ok_eq db fid true X t1 hf
  have hf2 : ((updateFavor db fid (some true) (some X) t1).2.favors.find?
      (fun f => f.id == fid)).isSome := by
    rw [h1]
    exact find?_id_isSome_map_update hf
  have h2 := updateFavor_ok_eq (updateFavor db fid (some true) (some X) t1).2
    fid false X t2 hf2
  refine ⟨by simp [h1], ?_, by simp [h2], ?_⟩
  · rw [h1]
    intro f hmem hid
    have h9 := favorUpdate_mem (f := f) (by simpa using hmem) hid
    simpa using h9
  · rw [h2]
    intro f hmem hid
    have h9 := favorUpdate_mem (f := f) (by simpa using hmem) hid
    simpa using h9

/-- Concrete store used by several witnesses: two users, one Milk item owned
by user "A", one Favor on it given by user "B". -/
def wdb1 : DB :=
  { groups := [],
    users := [{ id := 1, username := "A", firstName := "Ann", lastName := "Ames",
                color := none, groupID := none },
              { id := 2, username := "B", firstName := "Bob", lastName := "Burr",
                color := none, groupID := none }],
    listItems := [{ id := 10, itemName := "Milk", priority := 2, added := 100,
                    userID := 1 }],
    favors := [{ id := 1, amount := 4, fulfilled := 7, reimbursed := none,
                 byUserID := 2, forUserID := 1, itemID := 10 }] }

/-- Witness for C5 at the concrete store `wdb1`, favor 1, amount 5. -/
theorem updateFavor_reimburse_roundTrip_witness :
    (updateFavor wdb1 1 (some true) (some 5) 42).1 = .ok ∧
    (∀ f ∈ (updateFavor wdb1 1 (some true) (some 5) 42).2.favors,
      f.id = 1 → f.reimbursed = some 42 ∧ f.amount = 5) ∧
    (updateFavor (updateFavor wdb1 1 (some true) (some 5) 42).2 1
        (some false) (some 5) 43).1 = .ok ∧
    (∀ f ∈ (updateFavor (updateFavor wdb1 1 (some true) (some 5) 42).2 1
        (some false) (some 5) 43).2.favors,
      f.id = 1 → f.reimbursed = none ∧ f.amount = 5) :=
  updateFavor_reimburse_roundTrip wdb1 1 5 42 43 (by decide)

/-! ## C6: createFavor on an already-fulfilled item -/

/-- C6: for every item that already has an associated Favor, an otherwise
well-formed `createFavor` call on that item (both usernames resolve, the item
belongs to the `for` user, the amount is supplied) fails with Conflict and
leaves the entire store — in particular the existing Favor — unchanged. -/
theorem createFavor_conflict_preserves (db : DB) (i : Nat) (b c : String)
    (a : ℚ) (now : Nat) (byUser forUser : UserRow)
    (hi : i ≠ 0) (hb : b ≠ "") (hc : c ≠ "")
    (hbu : db.users.find? (fun u => u.username == b) = some byUser)
    (hfu : db.users.find? (fun u => u.username == c) = some forUser)
    (hitem : (db.listItems.find? (fun li =>
      li.id == i && li.userID == forUser.id)).isSome)
    (hfav : (db.favors.find? (fun f => f.itemID == i)).isSome) :
    createFavor db (some i) (some b) (some c) (some a) now = (.conflict, db) := by
  rcases Option.isSome_iff_exists.mp hitem with ⟨li, hli⟩
  simp [createFavor, natFalsy, strFalsy, hi, hb, hc, hbu, hfu, hli, hfav]

/-- Witness for C6 at the concrete store `wdb1`: item 10 already has favor 1,
so a second favor by "B" for "A" is rejected and the store is untouched. -/
theorem createFavor_conflict_preserves_witness :
    createFavor wdb1 (some 10) (some "B") (some "A") (some 3) 8 = (.conflict, wdb1) :=
  createFavor_conflict_preserves wdb1 10 "B" "A" 3 8
    { id := 2, username := "B", firstName := "Bob", lastName := "Burr",
      color := none, groupID := none }
    { id := 1, username := "A", firstName := "Ann", lastName := "Ames",
      color := none, groupID := none }
    (by decide) (by decide) (by decide) (by decide) (by decide) (by decide) (by decide)

/-! ## C2: createGroup with a missing initial user -/

/-- Concrete store for the C2 scenario: one user "a", no groups. -/
def wdb2 : DB :=
  { groups := [],
    users := [{ id := 1, username := "a", firstName := "Ann", lastName := "Ames",
                color := none, groupID := none }],
    listItems := [], favors := [] }

/-- C2 is violated by the code: `createGroup("dev-team", "Dev Team",
["a","ghost"])` where "ghost" does not exist reports the NotFound error, yet
the Group row "dev-team" HAS been inserted (the INSERT runs before the
users-exist check and nothing rolls it back). User "a"'s groupID is unchanged.
This theorem evaluates the operation at that failing input. -/
theorem createGroup_notFound_leaves_group_created :
    (createGroup wdb2 "dev-team" "Dev Team" (some ["a", "ghost"])).1 =
      .usersNotFound ∧
    (createGroup wdb2 "dev-team" "Dev Team" (some ["a", "ghost"])).2.groups =
      [{ id := "dev-team", name := "Dev Team" }] ∧
    (createGroup wdb2 "dev-team" "Dev Team" (some ["a", "ghost"])).2.users =
      wdb2.users := by
  refine ⟨?_, ?_, ?_⟩ <;> decide

/-! ## C4: the dynamic UPDATE statement of updateUser -/

/-- C4 is violated by the code: the fragments pushed for the dynamic
`UPDATE AppUser` statement interpolate the parameter index without the
literal dollar sign pg-promise placeholders require, so an update of
firstName alone produces `UPDATE AppUser SET firstName = 1 WHERE username = 2`
— a statement containing no `$` at all. The two passed values (the new name
and the username) are never referenced, and the literal comparisons
`firstName = 1` / `username = 2` make the database reject the statement, so
the endpoint answers 500 instead of updating the field. -/
theorem updateUser_query_has_no_placeholders :
    updateUserQuery (some "Bob") none none none =
      "UPDATE AppUser SET firstName = 1 WHERE username = 2" ∧
    Char.ofNat 36 ∉ (updateUserQuery (some "Bob") none none none).toList ∧
    updateUserValuesLength (some "Bob") none none none = 2 := by
  refine ⟨rfl, ?_, rfl⟩
  decide

/-! ## C9: favor amounts and non-negativity -/

/-- Concrete store for the C9 counterexample: two users, one item, no
favors. -/
def wdb3 : DB :=
  { groups := [],
    users := [{ id := 1, username := "a", firstName := "Ann", lastName := "Ames",
                color := none, groupID := none },
              { id := 2, username := "b", firstName := "Bob", lastName := "Burr",
                color := none, groupID := none }],
    listItems := [{ id := 10, itemName := "Milk", priority := 2, added := 100,
                    userID := 1 }],
    favors := [] }

/-- C9 as stated is false on the code: neither the route nor the schema checks
the sign of `amount`, so `createFavor(10, "b", "a", -1)` succeeds and the
store then holds a Favor with the negative amount -1. -/
theorem createFavor_accepts_negative_amount :
    (createFavor wdb3 (some 10) (some "b") (some "a") (some (-1)) 7).1 =
      .created 1 ∧
    (createFavor wdb3 (some 10) (some "b") (some "a") (some (-1)) 7).2.favors.map
      (fun f => f.amount) = [-1] ∧
    ¬ (0 : ℚ) ≤ (-1 : ℚ) := by
  refine ⟨rfl, rfl, by norm_num⟩

/-- Where the favors of a post-`createFavor` store come from: either the row
was already present, or it is the inserted row, whose amount is the supplied
one. -/
theorem createFavor_amount_cases (db : DB) (itemId : Option Nat)
    (byUsername forUsername : Option String) (a : Option ℚ) (now : Nat)
    {f : FavorRow}
    (hf : f ∈ (createFavor db itemId byUsername forUsername a now).2.favors) :
    f ∈ db.favors ∨ ∃ x, a = some x ∧ f.amount = x := by
  cases a with
  | none =>
    unfold createFavor at hf
    simp [Option.isNone] at hf
    exact .inl hf
  | some x =>
    unfold createFavor at hf
    split at hf
    · exact .inl hf
    · split at hf
      · dsimp only at hf
        split at hf
        · exact .inl hf
        · split at hf
          · exact .inl hf
          · rcases List.mem_append.mp hf with h | h
            · exact .inl h
            · simp only [List.mem_singleton] at h
              subst h
              exact .inr ⟨x, rfl, rfl⟩
      · exact .inl hf

/-- Where the favors of a post-`updateFavor` store come from: either the row
was already present and untouched, or its amount was overwritten with the
supplied one. -/
theorem updateFavor_amount_cases (db : DB) (fid : Nat) (r : Option Bool)
    (a : Option ℚ) (now : Nat) {f : FavorRow}
    (hf : f ∈ (updateFavor db fid r a now).2.favors) :
    f ∈ db.favors ∨ ∃ x, a = some x ∧ f.amount = x := by
  cases a with
  | none =>
    unfold updateFavor at hf
    simp [Option.isNone] at hf
    exact .inl hf
  | some x =>
    unfold updateFavor at hf
    split at hf
    · exact .inl hf
    · split at hf
      · exact .inl hf
      · rcases List.mem_map.mp hf with ⟨g, hg, rfl⟩
        by_cases h : g.id = fid
        · exact .inr ⟨x, rfl, by simp [h]⟩
        · rw [if_neg (by simp [h])]
          exact .inl hg

/-- C9 amended: after every createFavor or updateFavor call in which the
supplied amount (when present) is non-negative, performed on a store whose
Favors all have non-negative amounts, every Favor in the store still has a
non-negative amount. The restriction to non-negative inputs is forced by the
counterexample: the code never checks the sign of `amount`. -/
theorem favor_amounts_nonneg_preserved (db : DB) (itemId : Option Nat)
    (byUsername forUsername : Option String) (a : Option ℚ) (fid now now2 : Nat)
    (r : Option Bool)
    (h0 : ∀ f ∈ db.favors, 0 ≤ f.amount)
    (ha : ∀ x, a = some x → 0 ≤ x) :
    (∀ f ∈ (createFavor db itemId byUsername forUsername a now).2.favors,
      0 ≤ f.amount) ∧
    (∀ f ∈ (updateFavor db fid r a now2).2.favors, 0 ≤ f.amount) := by
  constructor
  · intro f hf
    rcases createFavor_amount_cases db itemId byUsername forUsername a now hf with
      h | ⟨x, hx, hfx⟩
    · exact h0 f h
    · rw [hfx]
      exact ha x hx
  · intro f hf
    rcases updateFavor_amount_cases db fid r a now2 hf with h | ⟨x, hx, hfx⟩
    · exact h0 f h
    · rw [hfx]
      exact ha x hx

/-- Witness for the amended C9 at `wdb3` with amount 2. -/
theorem favor_amounts_nonneg_preserved_witness :
    (∀ f ∈ (createFavor wdb3 (some 10) (some "b") (some "a") (some 2) 7).2.favors,
      0 ≤ f.amount) ∧
    (∀ f ∈ (updateFavor wdb3 1 (some true) (some 2) 9).2.favors, 0 ≤ f.amount) :=
  favor_amounts_nonneg_preserved wdb3 (some 10) (some "b") (some "a") (some 2) 1 7 9
    (some true) (by decide)
    (by intro x hx; rw [Option.some_inj] at hx; rw [← hx]; norm_num)

/-! ## C8: deleteListItem -/

/-- C8: `deleteListItem(itemId, ownerUsername)` fails with NotFound exactly
when no ListItem with that id owned by that username exists, and then changes
nothing; on success it removes the item and every Favor referencing it in the
same step, touching nothing else, so no Favor references the deleted item
afterwards. -/
theorem deleteListItem_spec (db : DB) (username : String) (i : Nat) :
    ((deleteListItem db username i).1 = .notFound ↔
      ¬ ∃ li ∈ db.listItems, li.id = i ∧
        ∃ u ∈ db.users, u.id = li.userID ∧ u.username = username) ∧
    ((deleteListItem db username i).1 = .notFound →
      (deleteListItem db username i).2 = db) ∧
    ((deleteListItem db username i).1 = .ok →
      (deleteListItem db username i).2.groups = db.groups ∧
      (deleteListItem db username i).2.users = db.users ∧
      (∀ li, li ∈ (deleteListItem db username i).2.listItems ↔
        li ∈ db.listItems ∧ li.id ≠ i) ∧
      (∀ f, f ∈ (deleteListItem db username i).2.favors ↔
        f ∈ db.favors ∧ f.itemID ≠ i)) := by
  have hiff : ownsItem db username i = true ↔
      ∃ li ∈ db.listItems, li.id = i ∧
        ∃ u ∈ db.users, u.id = li.userID ∧ u.username = username := by
    simp [ownsItem]
  by_cases h : ownsItem db username i = true
  · have hres : deleteListItem db username i =
        (.ok, { db with
          favors := db.favors.filter (fun f => !(f.itemID == i)),
          listItems := db.listItems.filter (fun li => !(li.id == i)) }) := by
      simp [deleteListItem, h]
    refine ⟨?_, ?_, ?_⟩
    · constructor
      · intro hc
        rw [hres] at hc
        simp at hc
      · intro hnp
        exact absurd (hiff.mp h) hnp
    · intro hc
      rw [hres] at hc
      simp at hc
    · intro _
      rw [hres]
      refine ⟨rfl, rfl, ?_, ?_⟩
      · intro li
        simp [List.mem_filter]
      · intro f
        simp [List.mem_filter]
  · have hres : deleteListItem db username i = (.notFound, db) := by
      simp [deleteListItem, h]
    refine ⟨?_, ?_, ?_⟩
    · simp only [hres]
      simp only [eq_self_iff_true, true_iff]
      exact fun hp => h (hiff.mpr hp)
    · intro _
      rw [hres]
    · intro hc
      rw [hres] at hc
      simp at hc

/-- Witness for C8 at `wdb1`: user "A" owns item 10, which favor 1
references; deletion succeeds and no favor referencing 10 remains. -/
theorem deleteListItem_spec_witness :
    (deleteListItem wdb1 "A" 10).1 = .ok ∧
    (∀ f, f ∈ (deleteListItem wdb1 "A" 10).2.favors ↔
      f ∈ wdb1.favors ∧ f.itemID ≠ 10) := by
  have h := deleteListItem_spec wdb1 "A" 10
  have hok : (deleteListItem wdb1 "A" 10).1 = .ok := by decide
  exact ⟨hok, (h.2.2 hok).2.2.2⟩

/-! ## C3: deleteUser cascade -/

/-- C3: for every existing user (under invariant 5: a Favor's forUserID owns
its item), `deleteUser` succeeds reporting the number of the user's ListItems
as `deletedItems` and the number of Favors given or received as
`deletedFavors`; those counts equal the numbers of rows actually removed; the
remaining ListItems are exactly those not owned by the user, and the
remaining Favors are exactly those that neither name the user as giver or
receiver nor reference one of the user's items. -/
theorem deleteUser_cascades (db : DB) (username : String) (user : UserRow)
    (hu : db.users.find? (fun u => u.username == username) = some user)
    (h5 : ∀ f ∈ db.favors, ∀ li ∈ db.listItems, f.itemID = li.id →
      f.forUserID = li.userID) :
    (deleteUser db username).1 =
      .ok (db.listItems.filter (fun li => li.userID == user.id)).length
          (db.favors.filter (fun f =>
            f.byUserID == user.id || f.forUserID == user.id)).length ∧
    db.listItems.length = (deleteUser db username).2.listItems.length +
      (db.listItems.filter (fun li => li.userID == user.id)).length ∧
    db.favors.length = (deleteUser db username).2.favors.length +
      (db.favors.filter (fun f =>
        f.byUserID == user.id || f.forUserID == user.id)).length ∧
    (∀ li, li ∈ (deleteUser db username).2.listItems ↔
      li ∈ db.listItems ∧ li.userID ≠ user.id) ∧
    (∀ f, f ∈ (deleteUser db username).2.favors ↔
      f ∈ db.favors ∧ f.byUserID ≠ user.id ∧ f.forUserID ≠ user.id ∧
        ∀ li ∈ db.listItems, f.itemID = li.id → li.userID ≠ user.id) := by
  have hres : deleteUser db username =
      (.ok (db.listItems.filter (fun li => li.userID == user.id)).length
           (db.favors.filter (fun f =>
             f.byUserID == user.id || f.forUserID == user.id)).length,
       { db with
         users := db.users.filter (fun u => !(u.id == user.id)),
         listItems := db.listItems.filter (fun li => !(li.userID == user.id)),
         favors := (db.favors.filter (fun f =>
             !(((db.listItems.filter (fun li => li.userID == user.id)).map
               (fun li => li.id)).contains f.itemID))).filter (fun f =>
             !(f.byUserID == user.id || f.forUserID == user.id)) }) := by
    unfold deleteUser
    rw [hu]
  -- invariant 5 turns removal-by-owned-item into removal-by-for-user
  have hAB : ∀ f ∈ db.favors,
      ((db.listItems.filter (fun li => li.userID == user.id)).map
        (fun li => li.id)).contains f.itemID = true →
      (f.byUserID == user.id || f.forUserID == user.id) = true := by
    intro f hf hA
    rw [List.elem_iff] at hA
    rcases List.mem_map.mp hA with ⟨li, hli, hid⟩
    rcases List.mem_filter.mp hli with ⟨hliMem, hliOwn⟩
    have := h5 f hf li hliMem hid.symm
    simp only [beq_iff_eq] at hliOwn
    simp [this, hliOwn]
  -- the double filter collapses to filtering on by/for alone
  have hcollapse : (db.favors.filter (fun f =>
      !(((db.listItems.filter (fun li => li.userID == user.id)).map
        (fun li => li.id)).contains f.itemID))).filter (fun f =>
      !(f.byUserID == user.id || f.forUserID == user.id)) =
      db.favors.filter (fun f =>
        !(f.byUserID == user.id || f.forUserID == user.id)) := by
    rw [List.filter_filter]
    apply List.filter_congr
    intro f hf
    by_cases hP : (f.byUserID == user.id || f.forUserID == user.id) = true
    · simp [hP]
    · have hPf : (f.byUserID == user.id || f.forUserID == user.id) = false :=
        Bool.eq_false_iff.mpr hP
      have hAf : (((db.listItems.filter (fun li => li.userID == user.id)).map
          (fun li => li.id)).contains f.itemID) = false := by
        by_cases hA : (((db.listItems.filter (fun li => li.userID == user.id)).map
            (fun li => li.id)).contains f.itemID) = true
        · exact absurd (hAB f hf hA) hP
        · exact Bool.eq_false_iff.mpr hA
      rw [hPf, hAf]
      rfl
  refine ⟨by rw [hres], ?_, ?_, ?_, ?_⟩
  · rw [hres]
    have h := length_filter_not_add (fun li => li.userID == user.id) db.listItems
    dsimp only
    omega
  · rw [hres]
    dsimp only
    rw [hcollapse]
    have h := length_filter_not_add
      (fun f => f.byUserID == user.id || f.forUserID == user.id) db.favors
    omega
  · rw [hres]
    intro li
    dsimp only
    simp [List.mem_filter]
  · rw [hres]
    intro f
    dsimp only
    rw [hcollapse]
    constructor
    · intro hmem
      rcases List.mem_filter.mp hmem with ⟨hf, hP⟩
      simp only [Bool.not_eq_true', Bool.or_eq_false_iff, beq_eq_false_iff_ne] at hP
      refine ⟨hf, hP.1, hP.2, ?_⟩
      intro li hli hid hown
      have := h5 f hf li hli hid
      rw [hown] at this
      exact hP.2 this
    · rintro ⟨hf, hby, hfor, _⟩
      exact List.mem_filter.mpr ⟨hf, by simp [hby, hfor]⟩

/-- Witness for C3 at `wdb1`, deleting user "A" (owner of item 10, receiver
of favor 1). -/
theorem deleteUser_cascades_witness :
    (deleteUser wdb1 "A").1 = .ok 1 1 ∧
    (∀ f, f ∈ (deleteUser wdb1 "A").2.favors ↔
      f ∈ wdb1.favors ∧ f.byUserID ≠ 1 ∧ f.forUserID ≠ 1 ∧
        ∀ li ∈ wdb1.listItems, f.itemID = li.id → li.userID ≠ 1) := by
  have h := deleteUser_cascades wdb1 "A"
    { id := 1, username := "A", firstName := "Ann", lastName := "Ames",
      color := none, groupID := none } (by decide) (by decide)
  exact ⟨h.1, h.2.2.2.2⟩

/-! ## Helper lemmas about the GET /shop aggregation -/

theorem mem_shopRows {db : DB} {r : ShopRow} :
    r ∈ shopRows db ↔ ∃ li ∈ db.listItems, unfulfilled db li = true ∧
      ∃ u, db.users.find? (fun x => x.id == li.userID) = some u ∧
        r = { id := li.id, item := li.itemName, username := u.username } := by
  unfold shopRows
  rw [List.mem_flatMap]
  constructor
  · rintro ⟨li, hli, hr⟩
    refine ⟨li, hli, ?_⟩
    unfold shopRowFor at hr
    by_cases hU : unfulfilled db li = true
    · rw [if_pos hU] at hr
      cases hfind : db.users.find? (fun x => x.id == li.userID) with
      | none => rw [hfind] at hr; simp at hr
      | some u =>
        rw [hfind] at hr
        simp only [List.mem_singleton] at hr
        exact ⟨hU, u, rfl, hr⟩
    · rw [if_neg hU] at hr
      simp at hr
  · rintro ⟨li, hli, hU, u, hfind, rfl⟩
    refine ⟨li, hli, ?_⟩
    unfold shopRowFor
    rw [if_pos hU, hfind]
    simp

theorem flatMap_shopRowFor_ids_eq (db : DB) (l : List ListItemRow)
    (hfk : ∀ li ∈ l, ∃ u ∈ db.users, u.id = li.userID) :
    (l.flatMap (shopRowFor db)).map (fun r => r.id) =
      (l.filter (unfulfilled db)).map (fun li => li.id) := by
  induction l with
  | nil => simp
  | cons li t ih =>
    have hfk' : ∀ x ∈ t, ∃ u ∈ db.users, u.id = x.userID :=
      fun x hx => hfk x (List.mem_cons.mpr (.inr hx))
    rcases hfk li (List.mem_cons.mpr (.inl rfl)) with ⟨u0, hu0, hid0⟩
    rw [List.flatMap_cons, List.map_append, ih hfk']
    by_cases hU : unfulfilled db li = true
    · have hfind : (db.users.find? (fun x => x.id == li.userID)).isSome := by
        rw [List.find?_isSome]
        exact ⟨u0, hu0, by simp [hid0]⟩
      rcases Option.isSome_iff_exists.mp hfind with ⟨u, hu⟩
      unfold shopRowFor
      rw [if_pos hU, hu, List.filter_cons_of_pos hU]
      simp
    · unfold shopRowFor
      rw [if_neg hU, List.filter_cons_of_neg hU]
      simp

theorem flatMap_congr_mem {α β : Type} {l : List α} {f g : α → List β}
    (h : ∀ a ∈ l, f a = g a) : l.flatMap f = l.flatMap g := by
  induction l with
  | nil => rfl
  | cons a t ih =>
    rw [List.flatMap_cons, List.flatMap_cons, h a (List.mem_cons.mpr (.inl rfl)),
      ih (fun x hx => h x (List.mem_cons.mpr (.inr hx)))]

/-- Splitting a list into the groups produced by a nodup, covering list of
keys is a permutation of the list. -/
theorem flatMap_filter_key_perm {α β : Type} [DecidableEq β] (k : α → β) :
    ∀ (keys : List β) (rows : List α), keys.Nodup →
      (∀ r ∈ rows, k r ∈ keys) →
      (keys.flatMap (fun n => rows.filter (fun r => k r == n))).Perm rows := by
  intro keys
  induction keys with
  | nil =>
    intro rows _ hcov
    have hnil : rows = [] := List.eq_nil_iff_forall_not_mem.mpr
      (fun a ha => absurd (hcov a ha) (List.not_mem_nil _))
    rw [hnil]
    simp
  | cons n ns ih =>
    intro rows hnd hcov
    rcases List.nodup_cons.mp hnd with ⟨hn, hnd'⟩
    rw [List.flatMap_cons]
    have htail : ns.flatMap (fun m => rows.filter (fun r => k r == m)) =
        ns.flatMap (fun m => (rows.filter (fun r => !(k r == n))).filter
          (fun r => k r == m)) := by
      apply flatMap_congr_mem
      intro m hm
      rw [List.filter_filter]
      apply List.filter_congr
      intro r _
      by_cases hr : k r = m
      · have hmn : m ≠ n := fun he => hn (he ▸ hm)
        have hkn : (k r == n) = false := by
          rw [hr]
          simp [hmn]
        simp [hr, hkn, hmn]
      · simp [hr]
    rw [htail]
    have hcov' : ∀ r ∈ rows.filter (fun r => !(k r == n)), k r ∈ ns := by
      intro r hr
      rcases List.mem_filter.mp hr with ⟨hrm, hrn⟩
      rcases List.mem_cons.mp (hcov r hrm) with he | hin
      · simp [he] at hrn
      · exact hin
    have hperm := ih (rows.filter (fun r => !(k r == n))) hnd' hcov'
    have hstep := hperm.append_left (rows.filter (fun r => k r == n))
    exact hstep.trans (List.filter_append_perm _ rows)

theorem buildShoppingList_eq (db : DB) :
    buildShoppingList db =
      (List.insertionSort (· ≤ ·) ((shopRows db).map (fun r => r.item)).dedup).map
        (fun n =>
          { itemIds := ((shopRows db).filter (fun r => r.item == n)).map
              (fun r => r.id),
            item := n,
            neededBy := ((shopRows db).filter (fun r => r.item == n)).map
              (fun r => r.username) }) := rfl

/-! ## C1: the shopping list partitions the unfulfilled items -/

/-- C1: for every store whose ListItems have existing owners (FK) and distinct
ids (PK), `buildShoppingList` returns one entry per distinct itemName among
the items with no Favor; the concatenation of all `itemIds` is a permutation
of (and, ids being distinct, enumerates exactly once each of) the ids of the
no-Favor items; and the entries are in strictly ascending lexical order of
itemName. -/
theorem buildShoppingList_partition (db : DB)
    (hfk : ∀ li ∈ db.listItems, ∃ u ∈ db.users, u.id = li.userID)
    (hpk : (db.listItems.map (fun li => li.id)).Nodup) :
    ((buildShoppingList db).map (fun e => e.item)).Nodup ∧
    (∀ n, n ∈ (buildShoppingList db).map (fun e => e.item) ↔
      ∃ li ∈ db.listItems, unfulfilled db li = true ∧ li.itemName = n) ∧
    ((buildShoppingList db).flatMap (fun e => e.itemIds)).Perm
      ((db.listItems.filter (unfulfilled db)).map (fun li => li.id)) ∧
    ((buildShoppingList db).flatMap (fun e => e.itemIds)).Nodup ∧
    List.Pairwise (fun a b : String => a < b)
      ((buildShoppingList db).map (fun e => e.item)) := by
  have hbl := buildShoppingList_eq db
  have hitems : (buildShoppingList db).map (fun e => e.item) =
      List.insertionSort (· ≤ ·) ((shopRows db).map (fun r => r.item)).dedup := by
    rw [hbl, List.map_map]
    exact List.map_id' _
  have hnamesNodup : (List.insertionSort (· ≤ ·)
      ((shopRows db).map (fun r => r.item)).dedup).Nodup :=
    (List.perm_insertionSort _ _).symm.nodup (List.nodup_dedup _)
  have hmemNames : ∀ n, (n ∈ List.insertionSort (· ≤ ·)
      ((shopRows db).map (fun r => r.item)).dedup) ↔
      ∃ li ∈ db.listItems, unfulfilled db li = true ∧ li.itemName = n := by
    intro n
    rw [List.mem_insertionSort, List.mem_dedup, List.mem_map]
    constructor
    · rintro ⟨r, hr, rfl⟩
      rcases mem_shopRows.mp hr with ⟨li, hli, hU, u, _, rfl⟩
      exact ⟨li, hli, hU, rfl⟩
    · rintro ⟨li, hli, hU, rfl⟩
      have hfind : (db.users.find? (fun x => x.id == li.userID)).isSome := by
        rw [List.find?_isSome]
        rcases hfk li hli with ⟨u, hu, hid⟩
        exact ⟨u, hu, by simp [hid]⟩
      rcases Option.isSome_iff_exists.mp hfind with ⟨u, hu⟩
      exact ⟨{ id := li.id, item := li.itemName, username := u.username },
        mem_shopRows.mpr ⟨li, hli, hU, u, hu, rfl⟩, rfl⟩
  have hcov : ∀ r ∈ shopRows db, r.item ∈ List.insertionSort (· ≤ ·)
      ((shopRows db).map (fun s => s.item)).dedup := by
    intro r hr
    rw [List.mem_insertionSort, List.mem_dedup]
    exact List.mem_map.mpr ⟨r, hr, rfl⟩
  have hpart := flatMap_filter_key_perm (fun r : ShopRow => r.item)
    (List.insertionSort (· ≤ ·) ((shopRows db).map (fun r => r.item)).dedup)
    (shopRows db) hnamesNodup hcov
  have hflat : (buildShoppingList db).flatMap (fun e => e.itemIds) =
      ((List.insertionSort (· ≤ ·)
        ((shopRows db).map (fun r => r.item)).dedup).flatMap
        (fun n => (shopRows db).filter (fun r => r.item == n))).map
          (fun r => r.id) := by
    rw [hbl, List.flatMap_map, List.map_flatMap]
  have hrowsIds := flatMap_shopRowFor_ids_eq db db.listItems hfk
  have hperm3 : ((buildShoppingList db).flatMap (fun e => e.itemIds)).Perm
      ((db.listItems.filter (unfulfilled db)).map (fun li => li.id)) := by
    rw [hflat, ← hrowsIds]
    exact hpart.map _
  have hrhsNodup :
      ((db.listItems.filter (unfulfilled db)).map (fun li => li.id)).Nodup :=
    List.Nodup.sublist ((List.filter_sublist db.listItems).map (fun li => li.id))
      hpk
  refine ⟨?_, ?_, hperm3, hperm3.symm.nodup hrhsNodup, ?_⟩
  · rw [hitems]
    exact hnamesNodup
  · intro n
    rw [hitems]
    exact hmemNames n
  · rw [hitems]
    exact (List.sorted_insertionSort _ _).lt_of_le hnamesNodup

/-- Concrete store for the spec's Milk scenario: users "A" and "B", item 10
"Milk" owned by "A", item 11 "Milk" owned by "B", no favors. -/
def wdb4 : DB :=
  { groups := [],
    users := [{ id := 1, username := "A", firstName := "Ann", lastName := "Ames",
                color := none, groupID := none },
              { id := 2, username := "B", firstName := "Bob", lastName := "Burr",
                color := none, groupID := none }],
    listItems := [{ id := 10, itemName := "Milk", priority := 2, added := 100,
                    userID := 1 },
                  { id := 11, itemName := "Milk", priority := 1, added := 50,
                    userID := 2 }],
    favors := [] }

/-- Witness for C1 at the Milk scenario store. -/
theorem buildShoppingList_partition_witness :
    ((buildShoppingList wdb4).map (fun e => e.item)).Nodup ∧
    (∀ n, n ∈ (buildShoppingList wdb4).map (fun e => e.item) ↔
      ∃ li ∈ wdb4.listItems, unfulfilled wdb4 li = true ∧ li.itemName = n) ∧
    ((buildShoppingList wdb4).flatMap (fun e => e.itemIds)).Perm
      ((wdb4.listItems.filter (unfulfilled wdb4)).map (fun li => li.id)) ∧
    ((buildShoppingList wdb4).flatMap (fun e => e.itemIds)).Nodup ∧
    List.Pairwise (fun a b : String => a < b)
      ((buildShoppingList wdb4).map (fun e => e.item)) :=
  buildShoppingList_partition wdb4 (by decide) (by decide)

/-! ## C7: neededBy alignment and the unspecified array_agg order -/

/-- The username of the owner of the ListItem with the given id, read off the
store. -/
def ownerName (db : DB) (i : Nat) : Option String :=
  (db.listItems.find? (fun li => li.id == i)).bind (fun li =>
    (db.users.find? (fun u => u.id == li.userID)).map (fun u => u.username))

theorem find?_id_eq_of_nodup {l : List ListItemRow}
    (h : (l.map (fun li => li.id)).Nodup) {li : ListItemRow} (hmem : li ∈ l) :
    l.find? (fun x => x.id == li.id) = some li := by
  induction l with
  | nil => cases hmem
  | cons a t ih =>
    rw [List.map_cons, List.nodup_cons] at h
    rcases h with ⟨ha, ht⟩
    rcases List.mem_cons.mp hmem with rfl | hmem2
    · rw [List.find?_cons_of_pos _ (by simp)]
    · have hne : ¬(a.id == li.id) = true := by
        simp only [beq_iff_eq]
        intro he
        exact ha (by rw [he]; exact List.mem_map.mpr ⟨li, hmem2, rfl⟩)
      rw [List.find?_cons_of_neg (p := fun x : ListItemRow => x.id == li.id) _ hne]
      exact ih ht hmem2

theorem buildShoppingListRows_eq (rows : List ShopRow) :
    buildShoppingListRows rows =
      (List.insertionSort (· ≤ ·) (rows.map (fun r => r.item)).dedup).map
        (fun n =>
          { itemIds := (rows.filter (fun r => r.item == n)).map (fun r => r.id),
            item := n,
            neededBy := (rows.filter (fun r => r.item == n)).map
              (fun r => r.username) }) := rfl

theorem flatMap_shopRowFor_name_ids_eq (db : DB) (n : String)
    (l : List ListItemRow)
    (hfk : ∀ li ∈ l, ∃ u ∈ db.users, u.id = li.userID) :
    ((l.flatMap (shopRowFor db)).filter (fun r => r.item == n)).map
        (fun r => r.id) =
      (l.filter (fun li => unfulfilled db li && li.itemName == n)).map
        (fun li => li.id) := by
  induction l with
  | nil => simp
  | cons li t ih =>
    have hfk2 : ∀ x ∈ t, ∃ u ∈ db.users, u.id = x.userID :=
      fun x hx => hfk x (List.mem_cons.mpr (.inr hx))
    rcases hfk li (List.mem_cons.mpr (.inl rfl)) with ⟨u0, hu0, hid0⟩
    rw [List.flatMap_cons, List.filter_append, List.map_append, ih hfk2]
    by_cases hU : unfulfilled db li = true
    · have hfind : (db.users.find? (fun x => x.id == li.userID)).isSome := by
        rw [List.find?_isSome]
        exact ⟨u0, hu0, by simp [hid0]⟩
      rcases Option.isSome_iff_exists.mp hfind with ⟨u, hu⟩
      unfold shopRowFor
      rw [if_pos hU, hu]
      by_cases hn : li.itemName = n
      · simp [hU, hn]
      · simp [hU, hn]
    · unfold shopRowFor
      rw [if_neg hU]
      have hUf : unfulfilled db li = false := Bool.eq_false_iff.mpr hU
      simp [hUf]

/-- C7 as stated is false on the code: `array_agg(li.id)` carries no internal
ORDER BY, so PostgreSQL may feed a group's rows to the aggregates in any
order. Feeding the two joined Milk rows of the scenario store in the reverse
of table order — a permutation of exactly the same rows — produces the entry
`{itemIds := [11, 10], neededBy := ["B", "A"]}`, whose itemIds are not in
ascending id order. -/
theorem buildShoppingList_itemIds_not_sorted :
    ([{ id := 11, item := "Milk", username := "B" },
      { id := 10, item := "Milk", username := "A" }] : List ShopRow).Perm
      (shopRows wdb4) ∧
    buildShoppingListRows
      [{ id := 11, item := "Milk", username := "B" },
       { id := 10, item := "Milk", username := "A" }] =
      [{ itemIds := [11, 10], item := "Milk", neededBy := ["B", "A"] }] ∧
    ¬ List.Pairwise (fun a b : Nat => a < b) ([11, 10] : List Nat) := by
  refine ⟨by decide, rfl, by decide⟩

/-- C7 amended: the ascending-id conjunct is dropped (the query has no ORDER
BY inside `array_agg`, see `buildShoppingList_itemIds_not_sorted`); what the
code does guarantee holds for EVERY order in which the aggregates are fed the
joined rows: each entry's `neededBy` has exactly one username per
contributing item, positionally aligned with `itemIds` (position k of
neededBy is the owner of position k of itemIds, a user with several same-named
items repeated, not deduplicated), and `itemIds` enumerates exactly the ids
of the unfulfilled items bearing the entry's name. -/
theorem buildShoppingListRows_alignment (db : DB) (rows : List ShopRow)
    (hperm : rows.Perm (shopRows db))
    (hfk : ∀ li ∈ db.listItems, ∃ u ∈ db.users, u.id = li.userID)
    (hpk : (db.listItems.map (fun li => li.id)).Nodup) :
    ∀ e ∈ buildShoppingListRows rows,
      e.neededBy.length = e.itemIds.length ∧
      e.itemIds.Perm ((db.listItems.filter (fun li =>
        unfulfilled db li && li.itemName == e.item)).map (fun li => li.id)) ∧
      (∀ k, (hk : k < e.itemIds.length) → (hk2 : k < e.neededBy.length) →
        ownerName db e.itemIds[k] = some e.neededBy[k]) := by
  intro e he
  rw [buildShoppingListRows_eq] at he
  rcases List.mem_map.mp he with ⟨n, _, rfl⟩
  refine ⟨by simp, ?_, ?_⟩
  · have h1 := (hperm.filter (fun r => r.item == n)).map (fun r => r.id)
    have h2 : ((shopRows db).filter (fun r => r.item == n)).map (fun r => r.id) =
        (db.listItems.filter (fun li =>
          unfulfilled db li && li.itemName == n)).map (fun li => li.id) :=
      flatMap_shopRowFor_name_ids_eq db n db.listItems hfk
    exact h2 ▸ h1
  · intro k hk hk2
    have hkg : k < (rows.filter (fun r => r.item == n)).length := by
      simpa using hk
    have hmemk : (rows.filter (fun r => r.item == n))[k] ∈
        rows.filter (fun r => r.item == n) := List.getElem_mem hkg
    have hrow : (rows.filter (fun r => r.item == n))[k] ∈ shopRows db :=
      hperm.mem_iff.mp (List.mem_filter.mp hmemk).1
    rcases mem_shopRows.mp hrow with ⟨li, hli, _, u, hfind, hreq⟩
    show ownerName db (((rows.filter (fun r => r.item == n)).map
        (fun r => r.id))[k]) = some (((rows.filter
        (fun r => r.item == n)).map (fun r => r.username))[k])
    rw [List.getElem_map, List.getElem_map, hreq]
    unfold ownerName
    rw [find?_id_eq_of_nodup hpk hli]
    simp [hfind]

/-- Witness for the amended C7: feeding the table order at the Milk scenario
store, the single entry is `{item := "Milk", itemIds := [10, 11],
neededBy := ["A", "B"]}`, its ids are exactly the unfulfilled Milk items, and
positions 0 and 1 of neededBy own positions 0 and 1 of itemIds. -/
theorem buildShoppingListRows_alignment_witness :
    (ShopEntry.mk [10, 11] "Milk" ["A", "B"]).neededBy.length =
      (ShopEntry.mk [10, 11] "Milk" ["A", "B"]).itemIds.length ∧
    ([10, 11] : List Nat).Perm ((wdb4.listItems.filter (fun li =>
      unfulfilled wdb4 li && li.itemName == "Milk")).map (fun li => li.id)) ∧
    ownerName wdb4 10 = some "A" ∧
    ownerName wdb4 11 = some "B" := by
  have h := buildShoppingListRows_alignment wdb4 (shopRows wdb4)
    (List.Perm.refl _) (by decide) (by decide)
  have he := h (ShopEntry.mk [10, 11] "Milk" ["A", "B"]) (by decide)
  refine ⟨he.1, ?_, ?_, ?_⟩
  · simpa using he.2.1
  · simpa using he.2.2 0 (by decide) (by decide)
  · simpa using he.2.2 1 (by decide) (by decide)

/-! ## C10: the personal list -/

/-- The single response row a ListItem produces when at most one Favor
references it: the unfulfilled shape when none does, the joined shape
otherwise. -/
def theEntry (db : DB) (li : ListItemRow) : ListEntry :=
  match db.favors.find? (fun f => f.itemID == li.id) with
  | none => { id := li.id, item := li.itemName, priority := li.priority,
              added := li.added, fulfilled := false, fulfilledBy := none,
              fulfilledAt := none, favorId := none }
  | some f =>
      { id := li.id, item := li.itemName, priority := li.priority,
        added := li.added, fulfilled := true,
        fulfilledBy := jsOrNullStr
          ((db.users.find? (fun u => u.id == f.byUserID)).map (fun u => u.username)),
        fulfilledAt := some f.fulfilled,
        favorId := jsOrNullNat (some f.id) }

theorem find?_eq_some_of_filter_singleton {α : Type} {p : α → Bool} {l : List α}
    {a : α} (h : l.filter p = [a]) : l.find? p = some a := by
  induction l with
  | nil => simp at h
  | cons b t ih =>
    by_cases hb : p b = true
    · rw [List.filter_cons_of_pos hb] at h
      rcases List.cons_eq_cons.mp h with ⟨rfl, _⟩
      rw [List.find?_cons_of_pos _ hb]
    · rw [List.filter_cons_of_neg hb] at h
      rw [List.find?_cons_of_neg _ hb]
      exact ih h

theorem listRowsFor_eq_theEntry {db : DB} {li : ListItemRow}
    (h1 : (db.favors.filter (fun f => f.itemID == li.id)).length ≤ 1) :
    listRowsFor db li = [theEntry db li] := by
  unfold listRowsFor theEntry
  cases hfil : db.favors.filter (fun f => f.itemID == li.id) with
  | nil =>
    have hfind : db.favors.find? (fun f => f.itemID == li.id) = none :=
      List.find?_eq_none.mpr (List.filter_eq_nil_iff.mp hfil)
    rw [hfind]
  | cons f fs =>
    have hfs : fs = [] := by
      rw [hfil, List.length_cons] at h1
      exact List.length_eq_zero.mp (by omega)
    subst hfs
    have hfind := find?_eq_some_of_filter_singleton hfil
    rw [hfind]
    simp

/-- Under invariant 4 (at most one Favor per item) `getList` is the sorted
owned items, one response row each. -/
theorem getList_eq_map (db : DB) (username : String) (user : UserRow)
    (hu : db.users.find? (fun u => u.username == username) = some user)
    (inv4 : ∀ li ∈ db.listItems,
      (db.favors.filter (fun f => f.itemID == li.id)).length ≤ 1) :
    getList db username = some ((List.insertionSort itemOrder
      (db.listItems.filter (fun li => li.userID == user.id))).map (theEntry db)) := by
  unfold getList
  rw [hu]
  dsimp only
  have hgen : ∀ l : List ListItemRow,
      (∀ li ∈ l, (db.favors.filter (fun f => f.itemID == li.id)).length ≤ 1) →
      l.flatMap (listRowsFor db) = l.map (theEntry db) := by
    intro l hl
    induction l with
    | nil => rfl
    | cons a t ih =>
      rw [List.flatMap_cons,
        listRowsFor_eq_theEntry (hl a (List.mem_cons.mpr (.inl rfl))),
        List.map_cons, ih (fun x hx => hl x (List.mem_cons.mpr (.inr hx))),
        List.singleton_append]
  rw [hgen _ (fun li hli => inv4 li
    (List.mem_filter.mp ((List.mem_insertionSort itemOrder).mp hli)).1)]

theorem theEntry_fields (db : DB) (li : ListItemRow) :
    (theEntry db li).id = li.id ∧ (theEntry db li).priority = li.priority ∧
      (theEntry db li).added = li.added := by
  unfold theEntry
  cases db.favors.find? (fun f => f.itemID == li.id) <;> simp

theorem theEntry_favor_flags (db : DB) (li : ListItemRow)
    (hid0 : ∀ f ∈ db.favors, f.id ≠ 0)
    (hby : ∀ f ∈ db.favors, ∃ u ∈ db.users, u.id = f.byUserID)
    (hun : ∀ u ∈ db.users, u.username ≠ "") :
    ((theEntry db li).fulfilled = true ↔ ∃ f ∈ db.favors, f.itemID = li.id) ∧
    ((theEntry db li).favorId = none ↔ ¬ ∃ f ∈ db.favors, f.itemID = li.id) ∧
    ((theEntry db li).fulfilledAt = none ↔ ¬ ∃ f ∈ db.favors, f.itemID = li.id) ∧
    ((theEntry db li).fulfilledBy = none ↔ ¬ ∃ f ∈ db.favors, f.itemID = li.id) := by
  unfold theEntry
  cases hfind : db.favors.find? (fun f => f.itemID == li.id) with
  | none =>
    have hno : ¬ ∃ f ∈ db.favors, f.itemID = li.id := by
      rintro ⟨f, hf, hfi⟩
      have := List.find?_eq_none.mp hfind f hf
      simp [hfi] at this
    simp [hno]
  | some f =>
    have hfmem := List.mem_of_find?_eq_some hfind
    have hfi : f.itemID = li.id := by simpa using List.find?_some hfind
    have hyes : ∃ g ∈ db.favors, g.itemID = li.id := ⟨f, hfmem, hfi⟩
    have hfid : jsOrNullNat (some f.id) = some f.id := by
      simp [jsOrNullNat, hid0 f hfmem]
    have hbyu : (db.users.find? (fun u => u.id == f.byUserID)).isSome := by
      rw [List.find?_isSome]
      rcases hby f hfmem with ⟨u, hu, hid⟩
      exact ⟨u, hu, by simp [hid]⟩
    rcases Option.isSome_iff_exists.mp hbyu with ⟨u, hu⟩
    have humem := List.mem_of_find?_eq_some hu
    have hbyName : jsOrNullStr ((db.users.find? (fun x => x.id == f.byUserID)).map
        (fun x => x.username)) = some u.username := by
      rw [hu]
      simp [jsOrNullStr, hun u humem]
    simp [hyes, hfid, hbyName]

/-- C10: for every existing user — under the store invariants: at most one
Favor per item, distinct item ids, favor ids nonzero (SERIAL), every Favor's
giver exists, usernames non-empty — the personal list contains each ListItem
the user owns exactly once, is ordered by ascending priority and, within a
priority, ascending added time, and each row's fulfilled flag is true exactly
when a Favor for the item exists, with favorId, fulfilledAt and fulfilledBy
null exactly when none does. -/
theorem getList_spec (db : DB) (username : String) (user : UserRow)
    (l : List ListEntry)
    (hu : db.users.find? (fun u => u.username == username) = some user)
    (inv4 : ∀ li ∈ db.listItems,
      (db.favors.filter (fun f => f.itemID == li.id)).length ≤ 1)
    (hpk : (db.listItems.map (fun li => li.id)).Nodup)
    (hid0 : ∀ f ∈ db.favors, f.id ≠ 0)
    (hby : ∀ f ∈ db.favors, ∃ u ∈ db.users, u.id = f.byUserID)
    (hun : ∀ u ∈ db.users, u.username ≠ "")
    (hl : getList db username = some l) :
    (l.map (fun e => e.id)).Perm
      ((db.listItems.filter (fun li => li.userID == user.id)).map
        (fun li => li.id)) ∧
    (l.map (fun e => e.id)).Nodup ∧
    List.Pairwise (fun a b : ListEntry => a.priority < b.priority ∨
      (a.priority = b.priority ∧ a.added ≤ b.added)) l ∧
    ∀ e ∈ l,
      ((e.fulfilled = true) ↔ ∃ f ∈ db.favors, f.itemID = e.id) ∧
      ((e.favorId = none) ↔ ¬ ∃ f ∈ db.favors, f.itemID = e.id) ∧
      ((e.fulfilledAt = none) ↔ ¬ ∃ f ∈ db.favors, f.itemID = e.id) ∧
      ((e.fulfilledBy = none) ↔ ¬ ∃ f ∈ db.favors, f.itemID = e.id) := by
  have hmap := getList_eq_map db username user hu inv4
  rw [hmap, Option.some_inj] at hl
  subst hl
  have hids : (List.insertionSort itemOrder
      (db.listItems.filter (fun li => li.userID == user.id))).map
        (fun li => (theEntry db li).id) =
      (List.insertionSort itemOrder
      (db.listItems.filter (fun li => li.userID == user.id))).map
        (fun li => li.id) :=
    List.map_congr_left (fun li _ => (theEntry_fields db li).1)
  have hmapids : ((List.insertionSort itemOrder
      (db.listItems.filter (fun li => li.userID == user.id))).map
        (theEntry db)).map (fun e => e.id) =
      (List.insertionSort itemOrder
      (db.listItems.filter (fun li => li.userID == user.id))).map
        (fun li => li.id) := by
    rw [List.map_map]
    exact hids
  have hperm : ((List.insertionSort itemOrder
      (db.listItems.filter (fun li => li.userID == user.id))).map
        (theEntry db)).map (fun e => e.id) |>.Perm
      ((db.listItems.filter (fun li => li.userID == user.id)).map
        (fun li => li.id)) := by
    rw [hmapids]
    exact (List.perm_insertionSort _ _).map _
  have hrhsNodup : ((db.listItems.filter (fun li => li.userID == user.id)).map
      (fun li => li.id)).Nodup :=
    List.Nodup.sublist
      ((List.filter_sublist db.listItems).map (fun li => li.id)) hpk
  refine ⟨hperm, hperm.symm.nodup hrhsNodup, ?_, ?_⟩
  · have hsorted := List.sorted_insertionSort itemOrder
      (db.listItems.filter (fun li => li.userID == user.id))
    rw [List.pairwise_map]
    refine hsorted.imp ?_
    intro a b hab
    rcases theEntry_fields db a with ⟨_, hpa, haa⟩
    rcases theEntry_fields db b with ⟨_, hpb, hab2⟩
    rw [hpa, haa, hpb, hab2]
    exact hab
  · intro e he
    rcases List.mem_map.mp he with ⟨li, _, rfl⟩
    rw [(theEntry_fields db li).1]
    exact theEntry_favor_flags db li hid0 hby hun

/-- The expected personal list of user "A" in `wdb1`: one fulfilled Milk
row. -/
def wlistA : List ListEntry :=
  [{ id := 10, item := "Milk", priority := 2, added := 100,
     fulfilled := true, fulfilledBy := some "B", fulfilledAt := some 7,
     favorId := some 1 }]

/-- Witness for C10 at `wdb1`, user "A": the list is the single fulfilled
Milk row. -/
theorem getList_spec_witness :
    (wlistA.map (fun e => e.id)).Perm
      ((wdb1.listItems.filter (fun li => li.userID == 1)).map
        (fun li => li.id)) ∧
    (wlistA.map (fun e => e.id)).Nodup ∧
    List.Pairwise (fun a b : ListEntry => a.priority < b.priority ∨
      (a.priority = b.priority ∧ a.added ≤ b.added)) wlistA ∧
    ∀ e ∈ wlistA,
      ((e.fulfilled = true) ↔ ∃ f ∈ wdb1.favors, f.itemID = e.id) ∧
      ((e.favorId = none) ↔ ¬ ∃ f ∈ wdb1.favors, f.itemID = e.id) ∧
      ((e.fulfilledAt = none) ↔ ¬ ∃ f ∈ wdb1.favors, f.itemID = e.id) ∧
      ((e.fulfilledBy = none) ↔ ¬ ∃ f ∈ wdb1.favors, f.itemID = e.id) :=
  getList_spec wdb1 "A"
    { id := 1, username := "A", firstName := "Ann", lastName := "Ames",
      color := none, groupID := none }
    wlistA
    (by decide) (by decide) (by decide) (by decide) (by decide) (by decide) rfl

end GroupCart
